import Mathlib

/-!
Shallow embedding of `src/RealNVP.py` (class `realnvp`, lines 119-171) over exact
real arithmetic. A batch row is a vector `Fin D → ℝ`; TensorFlow's elementwise
tensor operations become pointwise operations on such vectors, and
`tf.reduce_sum(s, [1])` becomes the sum of `s` over all `D` coordinates of one
sample. A feature network (`s_t` in the source) is kept opaque: any function
from the masked input to a pair `(s, t)` of vectors. The base distribution is
modelled by the only operation the embedded code uses, its `log_prob` function.
-/

namespace RealNVP

/-- One sample (one row of a batch) of dimension `D`. -/
abbrev Vec (D : ℕ) : Type := Fin D → ℝ

/-- An opaque feature network: maps the masked input to `(s, t)`, as the call
`s, t = self.layers[i](x_masked)` does in the source. -/
abbrev FeatureNet (D : ℕ) : Type := Vec D → Vec D × Vec D

/-- A mask is binary when every entry is `0` or `1`. -/
def IsBinaryMask {D : ℕ} (m : Vec D) : Prop := ∀ j, m j = 0 ∨ m j = 1

/-- The forward-pass update of one coupling step, source lines 142-144:
`x_masked + reversed_mask * (x * tf.exp(s) * reversed_mask + t * reversed_mask)`
with `x_masked = x * m` and `reversed_mask = 1 - m`, read elementwise. -/
noncomputable def forwardExpr {D : ℕ} (m s t x : Vec D) : Vec D :=
  fun j => x j * m j + (1 - m j) * (x j * Real.exp (s j) * (1 - m j) + t j * (1 - m j))

/-- The single-mask forward expression as the specification writes it:
`x_masked + (1 - m) ⊙ (x ⊙ exp(s) + t)`. Used only to compare with
`forwardExpr` (refinement claim). -/
noncomputable def specForwardExpr {D : ℕ} (m s t x : Vec D) : Vec D :=
  fun j => x j * m j + (1 - m j) * (x j * Real.exp (s j) + t j)

/-- The inverse-pass update of one coupling step, source lines 159-162:
`reversed_mask * (y - t * reversed_mask) * tf.exp(-(s * reversed_mask)) + y_masked`
with `y_masked = y * m` and `reversed_mask = 1 - m`, read elementwise. -/
noncomputable def inverseExpr {D : ℕ} (m s t y : Vec D) : Vec D :=
  fun j => (1 - m j) * (y j - t j * (1 - m j)) * Real.exp (-(s j * (1 - m j))) + y j * m j

/-- One iteration of the loop in `realnvp.forward` (source lines 139-145):
masks the input, queries the feature network on the masked input, applies
`forwardExpr`, and returns the value added to the log-determinant accumulator,
which in the source is `tf.reduce_sum(s, [1])`: the sum of `s` over ALL
coordinates. -/
noncomputable def coupleForward {D : ℕ} (m : Vec D) (net : FeatureNet D) (x : Vec D) :
    Vec D × ℝ :=
  (forwardExpr m (net (fun j => x j * m j)).1 (net (fun j => x j * m j)).2 x,
   ∑ j, (net (fun j => x j * m j)).1 j)

/-- One iteration of the loop in `realnvp.inverse` (source lines 156-163):
masks the input, queries the feature network on the masked input, applies
`inverseExpr`, and returns the value the loop SUBTRACTS from the accumulator
(`log_det_inv -= tf.reduce_sum(s, [1])`): again the sum of `s` over all
coordinates. -/
noncomputable def coupleInverse {D : ℕ} (m : Vec D) (net : FeatureNet D) (y : Vec D) :
    Vec D × ℝ :=
  (inverseExpr m (net (fun j => y j * m j)).1 (net (fun j => y j * m j)).2 y,
   ∑ j, (net (fun j => y j * m j)).1 j)

/-- The loop of `realnvp.forward` over the (mask, layer) pairs still to be
applied, threading the running vector and the log-determinant accumulator. -/
noncomputable def forwardAux {D : ℕ} :
    List (Vec D × FeatureNet D) → Vec D → ℝ → Vec D × ℝ
  | [], x, d => (x, d)
  | c :: rest, x, d =>
      forwardAux rest (coupleForward c.1 c.2 x).1 (d + (coupleForward c.1 c.2 x).2)

/-- The loop of `realnvp.inverse`, taking the (mask, layer) pairs already in
processing order (the caller reverses the list, as `reversed(range(num_cl))`
does) and subtracting each step's sum from the accumulator. -/
noncomputable def inverseAux {D : ℕ} :
    List (Vec D × FeatureNet D) → Vec D → ℝ → Vec D × ℝ
  | [], y, d => (y, d)
  | c :: rest, y, d =>
      inverseAux rest (coupleInverse c.1 c.2 y).1 (d - (coupleInverse c.1 c.2 y).2)

/-- The state stored by `realnvp.__init__` (source lines 120-130): the feature
networks, the masks, and the base distribution (modelled by its `log_prob`). -/
structure realnvp (D : ℕ) where
  layers : List (FeatureNet D)
  masks : List (Vec D)
  distr : Vec D → ℝ

/-- `self.num_cl = len(masks)` (source line 124). -/
def realnvp.num_cl {D : ℕ} (r : realnvp D) : ℕ := r.masks.length

/-- Construction, source lines 120-130. The Python `__init__` body only stores
its three arguments; it contains no validation and no `raise`, so the `Except`
codomain (where a Configuration error would surface as `.error`) is always
`.ok`. -/
def realnvp.init {D : ℕ} (layers : List (FeatureNet D)) (masks : List (Vec D))
    (distr : Vec D → ℝ) : Except String (realnvp D) :=
  .ok { layers := layers, masks := masks, distr := distr }

/-- `realnvp.forward` (source lines 134-147): starts the accumulator at zero
(`tf.zeros(y.shape[0])`) and runs the coupling steps for `i` ascending over
`range(self.num_cl)`, pairing `masks[i]` with `layers[i]`. -/
noncomputable def realnvp.forward {D : ℕ} (r : realnvp D) (y : Vec D) : Vec D × ℝ :=
  forwardAux (r.masks.zip r.layers) y 0

/-- `realnvp.inverse` (source lines 151-165): starts the accumulator at zero and
runs the inverse coupling steps for `i` in `reversed(range(self.num_cl))`,
pairing `masks[i]` with `layers[i]`. -/
noncomputable def realnvp.inverse {D : ℕ} (r : realnvp D) (x : Vec D) : Vec D × ℝ :=
  inverseAux ((r.masks.zip r.layers).reverse) x 0

/-- `realnvp.log_likelihood` (source lines 169-171):
`y, logdet = self.inverse(x); return self.distr.log_prob(y) + logdet`. -/
noncomputable def realnvp.log_likelihood {D : ℕ} (r : realnvp D) (x : Vec D) : ℝ :=
  r.distr (r.inverse x).1 + (r.inverse x).2

/-! Concrete data used by the witness theorems. -/

/-- A concrete feature network returning `s = 0`, `t = 0`. -/
noncomputable def netW : FeatureNet 2 := fun _ => (fun _ => 0, fun _ => 0)

/-- The alternating mask `[0, 1]` used by the source's initialization. -/
def maskW : Vec 2 := ![0, 1]

/-- A concrete one-layer flow with mask `[0, 1]`. -/
noncomputable def rW : realnvp 2 := ⟨[netW], [maskW], fun _ => 0⟩

/-- The concrete input `[1.0, 2.0]`. -/
def xW : Vec 2 := ![1, 2]

/-- A feature network whose scale output is `s = [0, 1]`: nonzero exactly at
coordinate 1, which mask `[0, 1]` marks as passed through. -/
noncomputable def netC2 : FeatureNet 2 := fun _ => (![0, 1], fun _ => 0)

/-- A one-layer flow exhibiting the log-determinant bug: mask `[0, 1]`,
feature network `netC2`. -/
noncomputable def rC2 : realnvp 2 := ⟨[netC2], [maskW], fun _ => 0⟩

/-- A feature network with `s = 0` and a fixed constant translation `c`. -/
noncomputable def constNet (c : Vec 2) : FeatureNet 2 := fun _ => (fun _ => 0, c)

/-- The two-layer toy flow of the end-to-end scenario: masks `[0,1]` and
`[1,0]`, constant translations `c0` and `c1`, zero scales. -/
noncomputable def toyFlow (c0 c1 : Vec 2) : realnvp 2 :=
  ⟨[constNet c0, constNet c1], [![0, 1], ![1, 0]], fun _ => 0⟩

/-! Helper lemmas (shared; none of them is a claim's theorem). -/

lemma forwardAux_acc {D : ℕ} (cls : List (Vec D × FeatureNet D)) (x : Vec D) (d : ℝ) :
    forwardAux cls x d = ((forwardAux cls x 0).1, d + (forwardAux cls x 0).2) := by
  induction cls generalizing x d with
  | nil => simp [forwardAux]
  | cons c rest ih =>
      simp only [forwardAux]
      rw [ih (coupleForward c.1 c.2 x).1 (d + (coupleForward c.1 c.2 x).2),
        ih (coupleForward c.1 c.2 x).1 (0 + (coupleForward c.1 c.2 x).2)]
      refine Prod.ext rfl ?_
      ring

lemma inverseAux_acc {D : ℕ} (cls : List (Vec D × FeatureNet D)) (y : Vec D) (d : ℝ) :
    inverseAux cls y d = ((inverseAux cls y 0).1, d + (inverseAux cls y 0).2) := by
  induction cls generalizing y d with
  | nil => simp [inverseAux]
  | cons c rest ih =>
      simp only [inverseAux]
      rw [ih (coupleInverse c.1 c.2 y).1 (d - (coupleInverse c.1 c.2 y).2),
        ih (coupleInverse c.1 c.2 y).1 (0 - (coupleInverse c.1 c.2 y).2)]
      refine Prod.ext rfl ?_
      ring

lemma forwardAux_append {D : ℕ} (l1 l2 : List (Vec D × FeatureNet D)) (x : Vec D) (d : ℝ) :
    forwardAux (l1 ++ l2) x d = forwardAux l2 (forwardAux l1 x d).1 (forwardAux l1 x d).2 := by
  induction l1 generalizing x d with
  | nil => simp [forwardAux]
  | cons c rest ih =>
      simp only [List.cons_append, forwardAux]
      exact ih _ _

lemma inverseAux_append {D : ℕ} (l1 l2 : List (Vec D × FeatureNet D)) (y : Vec D) (d : ℝ) :
    inverseAux (l1 ++ l2) y d = inverseAux l2 (inverseAux l1 y d).1 (inverseAux l1 y d).2 := by
  induction l1 generalizing y d with
  | nil => simp [inverseAux]
  | cons c rest ih =>
      simp only [List.cons_append, inverseAux]
      exact ih _ _

lemma coupleForward_masked {D : ℕ} (m : Vec D) (net : FeatureNet D) (x : Vec D)
    (hm : IsBinaryMask m) :
    (fun j => (coupleForward m net x).1 j * m j) = (fun j => x j * m j) := by
  funext j
  rcases hm j with h | h <;> simp [coupleForward, forwardExpr, h]

lemma coupleInverse_masked {D : ℕ} (m : Vec D) (net : FeatureNet D) (y : Vec D)
    (hm : IsBinaryMask m) :
    (fun j => (coupleInverse m net y).1 j * m j) = (fun j => y j * m j) := by
  funext j
  rcases hm j with h | h <;> simp [coupleInverse, inverseExpr, h]

lemma coupleInverse_coupleForward {D : ℕ} (m : Vec D) (net : FeatureNet D) (x : Vec D)
    (hm : IsBinaryMask m) :
    coupleInverse m net (coupleForward m net x).1 = (x, (coupleForward m net x).2) := by
  have hmask := coupleForward_masked m net x hm
  simp only [coupleInverse, hmask, Prod.mk.injEq]
  refine ⟨?_, rfl⟩
  funext j
  rcases hm j with h | h
  · simp only [inverseExpr, coupleForward, forwardExpr, h, sub_zero, one_mul, mul_one,
      mul_zero, zero_mul, add_zero, zero_add]
    rw [add_sub_cancel_right, Real.exp_neg]
    field_simp
  · simp [inverseExpr, coupleForward, forwardExpr, h]

lemma coupleForward_coupleInverse {D : ℕ} (m : Vec D) (net : FeatureNet D) (y : Vec D)
    (hm : IsBinaryMask m) :
    coupleForward m net (coupleInverse m net y).1 = (y, (coupleInverse m net y).2) := by
  have hmask := coupleInverse_masked m net y hm
  simp only [coupleForward, hmask, Prod.mk.injEq]
  refine ⟨?_, rfl⟩
  funext j
  rcases hm j with h | h
  · simp only [forwardExpr, coupleInverse, inverseExpr, h, sub_zero, one_mul, mul_one,
      mul_zero, zero_mul, add_zero, zero_add]
    rw [Real.exp_neg]
    field_simp
  · simp [forwardExpr, coupleInverse, inverseExpr, h]

lemma inverseAux_forwardAux {D : ℕ} (cls : List (Vec D × FeatureNet D))
    (hm : ∀ c ∈ cls, IsBinaryMask c.1) (x : Vec D) (d e : ℝ) :
    inverseAux cls.reverse (forwardAux cls x d).1 e
      = (x, e - ((forwardAux cls x d).2 - d)) := by
  induction cls generalizing x d e with
  | nil => simp [forwardAux, inverseAux]
  | cons c rest ih =>
      have hc : IsBinaryMask c.1 := hm c (List.mem_cons_self c rest)
      have hrest : ∀ a ∈ rest, IsBinaryMask a.1 := fun a ha => hm a (List.mem_cons_of_mem c ha)
      simp only [List.reverse_cons, forwardAux]
      rw [inverseAux_append,
        ih hrest (coupleForward c.1 c.2 x).1 (d + (coupleForward c.1 c.2 x).2) e]
      simp only [inverseAux, coupleInverse_coupleForward c.1 c.2 x hc]
      refine Prod.ext rfl ?_
      ring

lemma forwardAux_inverseAux {D : ℕ} (cls : List (Vec D × FeatureNet D))
    (hm : ∀ c ∈ cls, IsBinaryMask c.1) (y : Vec D) (d e : ℝ) :
    forwardAux cls (inverseAux cls.reverse y e).1 d
      = (y, d + (e - (inverseAux cls.reverse y e).2)) := by
  induction cls generalizing y d e with
  | nil => simp [forwardAux, inverseAux]
  | cons c rest ih =>
      have hc : IsBinaryMask c.1 := hm c (List.mem_cons_self c rest)
      have hrest : ∀ a ∈ rest, IsBinaryMask a.1 := fun a ha => hm a (List.mem_cons_of_mem c ha)
      simp only [List.reverse_cons]
      rw [inverseAux_append]
      simp only [inverseAux, forwardAux,
        coupleForward_coupleInverse c.1 c.2 (inverseAux rest.reverse y e).1 hc]
      rw [ih hrest y (d + (coupleInverse c.1 c.2 (inverseAux rest.reverse y e).1).2) e]
      refine Prod.ext rfl ?_
      ring

lemma zip_masks_binary {D : ℕ} (r : realnvp D) (hm : ∀ m ∈ r.masks, IsBinaryMask m) :
    ∀ c ∈ r.masks.zip r.layers, IsBinaryMask c.1 := by
  intro c hc
  exact hm c.1 (List.of_mem_zip (show (c.1, c.2) ∈ _ from hc)).1

/-! Claim theorems. -/

/-- C1: for every flow over `D = 2` whose masks are all binary, and any feature
networks, `inverse (forward x) = x` and `forward (inverse x) = x` exactly in
real arithmetic. -/
theorem realnvp_roundtrip (r : realnvp 2) (hm : ∀ m ∈ r.masks, IsBinaryMask m)
    (x : Vec 2) :
    (r.inverse (r.forward x).1).1 = x ∧ (r.forward (r.inverse x).1).1 = x := by
  have hz := zip_masks_binary r hm
  constructor
  · have h := inverseAux_forwardAux (r.masks.zip r.layers) hz x 0 0
    simpa [realnvp.forward, realnvp.inverse] using congrArg Prod.fst h
  · have h := forwardAux_inverseAux (r.masks.zip r.layers) hz x 0 0
    simpa [realnvp.forward, realnvp.inverse] using congrArg Prod.fst h

/-- C1 witness: the round trip at the concrete one-layer flow `rW` with binary
mask `[0, 1]` and input `[1, 2]`. -/
theorem realnvp_roundtrip_witness :
    (rW.inverse (rW.forward xW).1).1 = xW ∧ (rW.forward (rW.inverse xW).1).1 = xW :=
  realnvp_roundtrip rW
    (by
      intro m hma
      simp only [rW, List.mem_singleton] at hma
      subst hma
      intro j
      fin_cases j <;> simp [maskW])
    xW

/-- C3: for every flow over `D = 2` with binary masks, the log-determinant of
`forward` is the negation of the log-determinant `inverse` returns on the
vector output of `forward`. -/
theorem log_det_antisymmetry (r : realnvp 2) (hm : ∀ m ∈ r.masks, IsBinaryMask m)
    (x : Vec 2) :
    (r.forward x).2 = -((r.inverse (r.forward x).1).2) := by
  have hz := zip_masks_binary r hm
  have h := inverseAux_forwardAux (r.masks.zip r.layers) hz x 0 0
  have h2 := congrArg Prod.snd h
  simp only [realnvp.forward, realnvp.inverse] at h2 ⊢
  rw [h2]
  ring

/-- C3 witness: log-determinant antisymmetry at the concrete flow `rW` and
input `[1, 2]`. -/
theorem log_det_antisymmetry_witness :
    (rW.forward xW).2 = -((rW.inverse (rW.forward xW).1).2) :=
  log_det_antisymmetry rW
    (by
      intro m hma
      simp only [rW, List.mem_singleton] at hma
      subst hma
      intro j
      fin_cases j <;> simp [maskW])
    xW

/-- C5: in one coupling step, any coordinate `j` with `m j = 1` is unchanged by
the forward update and by the inverse update, for every input vector and every
feature network. -/
theorem coupling_pass_through {D : ℕ} (m : Vec D) (net : FeatureNet D) (x : Vec D)
    (j : Fin D) (hj : m j = 1) :
    (coupleForward m net x).1 j = x j ∧ (coupleInverse m net x).1 j = x j := by
  constructor
  · simp [coupleForward, forwardExpr, hj]
  · simp [coupleInverse, inverseExpr, hj]

/-- C5 witness: coordinate 1 of mask `[0, 1]` passes through the concrete step
with network `netW` and input `[1, 2]`. -/
theorem coupling_pass_through_witness :
    (coupleForward maskW netW xW).1 1 = xW 1 ∧ (coupleInverse maskW netW xW).1 1 = xW 1 :=
  coupling_pass_through maskW netW xW 1 (by simp [maskW])

/-- C7: `log_likelihood x` is exactly `distr.log_prob` of the vector returned
by `inverse x` plus the log-determinant returned by the same call. -/
theorem log_likelihood_change_of_variables {D : ℕ} (r : realnvp D) (x : Vec D) :
    r.log_likelihood x = r.distr (r.inverse x).1 + (r.inverse x).2 := rfl

/-- C10: a flow with an empty mask list leaves the input unchanged with
log-determinant zero in both directions, for any stored layer list, and its
log-likelihood is `distr.log_prob` of the input unchanged. -/
theorem empty_flow_identity {D : ℕ} (layers : List (FeatureNet D))
    (distr : Vec D → ℝ) (x : Vec D) :
    (realnvp.mk layers [] distr).forward x = (x, 0)
      ∧ (realnvp.mk layers [] distr).inverse x = (x, 0)
      ∧ (realnvp.mk layers [] distr).log_likelihood x = distr x := by
  refine ⟨rfl, rfl, ?_⟩
  simp [realnvp.log_likelihood, realnvp.inverse, inverseAux]

/-- C4 counterexample: the mask `[2, 3]` is not binary (so not a valid
partitioning mask), yet `realnvp.init` succeeds on it, storing it unchanged —
no Configuration error is raised. -/
theorem init_accepts_nonbinary_mask :
    ¬ IsBinaryMask (![2, 3] : Vec 2)
      ∧ realnvp.init ([] : List (FeatureNet 2)) [![2, 3]] (fun _ => 0)
          = .ok ⟨[], [![2, 3]], fun _ => 0⟩ := by
  refine ⟨?_, rfl⟩
  intro h
  rcases h 0 with h0 | h0 <;> simp at h0

/-- C4 amended: construction never validates masks — `realnvp.__init__` accepts
any mask list (binary or not, partitioning or not) and stores everything
unchanged, always succeeding. -/
theorem init_stores_masks_unchecked {D : ℕ} (layers : List (FeatureNet D))
    (masks : List (Vec D)) (distr : Vec D → ℝ) :
    realnvp.init layers masks distr = .ok ⟨layers, masks, distr⟩ := rfl

/-- C2: the code at the failing input. One coupling layer with mask `[0, 1]`
and a feature network outputting `s = [0, 1]` (nonzero only at the masked
coordinate 1): `forward` adds `1` to the log-determinant and `inverse`
subtracts `1`, although the sum of `s` restricted to the unmasked coordinates
(coordinate 0, where `s` is `0`) is `0`. The code's `tf.reduce_sum(s, [1])`
sums over all coordinates, so masked coordinates do contribute. -/
theorem log_det_includes_masked_coords :
    (rC2.forward xW).2 = 1 ∧ (rC2.inverse xW).2 = -1 := by
  constructor
  · simp [rC2, realnvp.forward, forwardAux, coupleForward, netC2, Fin.sum_univ_two]
  · simp [rC2, realnvp.inverse, inverseAux, coupleInverse, netC2, Fin.sum_univ_two]

/-- C6: `forward` consumes the head layer first, pairing it with the head mask,
then runs the remaining flow on its output; `inverse` first runs the remaining
flow's inverse and applies the head layer's own inverse last (reverse index
order), each direction accumulating the log-determinant additively from an
initial value of zero (the empty flow returns zero). -/
theorem flow_composition_order {D : ℕ} (m : Vec D) (net : FeatureNet D)
    (layers : List (FeatureNet D)) (masks : List (Vec D)) (distr : Vec D → ℝ)
    (x y : Vec D) :
    ((realnvp.mk (net :: layers) (m :: masks) distr).forward x).1
        = ((realnvp.mk layers masks distr).forward (coupleForward m net x).1).1
      ∧ ((realnvp.mk (net :: layers) (m :: masks) distr).forward x).2
        = (coupleForward m net x).2
          + ((realnvp.mk layers masks distr).forward (coupleForward m net x).1).2
      ∧ ((realnvp.mk (net :: layers) (m :: masks) distr).inverse y).1
        = (coupleInverse m net ((realnvp.mk layers masks distr).inverse y).1).1
      ∧ ((realnvp.mk (net :: layers) (m :: masks) distr).inverse y).2
        = ((realnvp.mk layers masks distr).inverse y).2
          - (coupleInverse m net ((realnvp.mk layers masks distr).inverse y).1).2
      ∧ ((realnvp.mk layers ([] : List (Vec D)) distr).forward x).2 = 0
      ∧ ((realnvp.mk layers ([] : List (Vec D)) distr).inverse y).2 = 0 := by
  have hf : (realnvp.mk (net :: layers) (m :: masks) distr).forward x
      = forwardAux (masks.zip layers) (coupleForward m net x).1 (0 + (coupleForward m net x).2) :=
    rfl
  have hacc := forwardAux_acc (masks.zip layers) (coupleForward m net x).1
    (0 + (coupleForward m net x).2)
  have hi : (realnvp.mk (net :: layers) (m :: masks) distr).inverse y
      = inverseAux ((masks.zip layers).reverse ++ [(m, net)]) y 0 := by
    simp only [realnvp.inverse, List.zip_cons_cons, List.reverse_cons]
  have happ := inverseAux_append ((masks.zip layers).reverse) [(m, net)] y 0
  refine ⟨?_, ?_, ?_, ?_, rfl, rfl⟩
  · rw [hf, hacc]
    rfl
  · rw [hf, hacc]
    show 0 + (coupleForward m net x).2 + _ = _
    rw [zero_add]
    rfl
  · rw [hi, happ]
    rfl
  · rw [hi, happ]
    rfl

/-- C8: for a binary mask, the implemented forward expression with its repeated
`reversed_mask` factors equals the specification's single-mask expression
`x_masked + (1 - m) ⊙ (x ⊙ exp(s) + t)`, for all `x`, `s`, `t`; and the
forward coupling step computes exactly that expression on the network's output. -/
theorem forward_expr_redundant_mask {D : ℕ} (m : Vec D) (hm : IsBinaryMask m)
    (s t x : Vec D) (net : FeatureNet D) :
    forwardExpr m s t x = specForwardExpr m s t x
      ∧ (coupleForward m net x).1
        = specForwardExpr m (net (fun j => x j * m j)).1 (net (fun j => x j * m j)).2 x := by
  have key : ∀ s t x : Vec D, forwardExpr m s t x = specForwardExpr m s t x := by
    intro s t x
    funext j
    rcases hm j with h | h <;> simp [forwardExpr, specForwardExpr, h]
  exact ⟨key s t x, by rw [show (coupleForward m net x).1 = forwardExpr m _ _ x from rfl, key]⟩

/-- C8 witness: the equality at the concrete binary mask `[0, 1]`, vectors
`s = t = 0`, input `[1, 2]` and network `netW`. -/
theorem forward_expr_redundant_mask_witness :
    forwardExpr maskW (fun _ => 0) (fun _ => 0) xW
        = specForwardExpr maskW (fun _ => 0) (fun _ => 0) xW
      ∧ (coupleForward maskW netW xW).1
        = specForwardExpr maskW (netW (fun j => xW j * maskW j)).1
            (netW (fun j => xW j * maskW j)).2 xW :=
  forward_expr_redundant_mask maskW
    (by intro j; fin_cases j <;> simp [maskW]) (fun _ => 0) (fun _ => 0) xW netW

/-- C9: the two-layer toy flow with masks `[0,1]`, `[1,0]`, zero scales and
constant translations `c0`, `c1`, on input `[1, 2]`: `forward` shifts
coordinate 0 by `c0 0` and coordinate 1 by `c1 1` with log-determinant `0`,
and `inverse` of that output recovers `[1, 2]` exactly with log-determinant
`0`. -/
theorem toy_two_layer_scenario (c0 c1 : Vec 2) :
    ((toyFlow c0 c1).forward xW).1 = ![1 + c0 0, 2 + c1 1]
      ∧ ((toyFlow c0 c1).forward xW).2 = 0
      ∧ ((toyFlow c0 c1).inverse ((toyFlow c0 c1).forward xW).1).1 = xW
      ∧ ((toyFlow c0 c1).inverse ((toyFlow c0 c1).forward xW).1).2 = 0 := by
  refine ⟨?_, ?_, ?_, ?_⟩
  · funext j
    fin_cases j <;>
      simp [toyFlow, realnvp.forward, forwardAux, coupleForward, forwardExpr, constNet,
        xW, Real.exp_zero]
  · simp [toyFlow, realnvp.forward, forwardAux, coupleForward, constNet]
  · funext j
    fin_cases j <;>
      simp [toyFlow, realnvp.forward, realnvp.inverse, forwardAux, inverseAux,
        coupleForward, coupleInverse, forwardExpr, inverseExpr, constNet, xW, Real.exp_zero]
  · simp [toyFlow, realnvp.inverse, inverseAux, coupleInverse, constNet]

end RealNVP
